import Mathlib

/-!
Shallow embedding of the witness parser and frame decoder of
`src/tools/validator.py` (the parser for Boolector's witness format).

Strings are modelled as `List Char` so that every operation matching a
Python string primitive (`strip`, `split(" ")`, `int(s, 2)`, regex prefix
matching) is an executable structural recursion with the exact semantics
of the Python call it translates.  The module-level mutable globals of the
source (`witness`, `symbols`, `symbol`, `props`, `memory_constraints`,
`frame_content`, `frame_number`, the output stream, printed warnings) are
collected in one state record threaded through the parse functions, and
every way the Python process can abort (the `parser_error` helper, which
prints and exits, an uncaught `IndexError` from `symbols[0][0]`, an
uncaught `ValueError` from `int(s, 2)`) is an `Except` error.
-/

/-- Strings of the Python program, as explicit character lists. -/
abbrev Str := List Char

/-- The whitespace set of Python's default `str.strip()` for the ASCII
range the witness format uses. -/
def isPySpace (c : Char) : Bool :=
  c = ' ' || c = '\t' || c = '\n' || c = '\r' || c = '\x0b' || c = '\x0c'

/-- Python `s.strip()`: drop whitespace from both ends. -/
def pyStrip (s : Str) : Str :=
  ((s.dropWhile isPySpace).reverse.dropWhile isPySpace).reverse

/-- Python `s.strip(cs)`: drop characters of the set `cs` from both ends
(used by the source as `symbol.strip("[]")` and `symbol.strip('@')`). -/
def pyStripChars (cs : List Char) (s : Str) : Str :=
  ((s.dropWhile (fun c => cs.contains c)).reverse.dropWhile
      (fun c => cs.contains c)).reverse

/-- Python `s.split(" ")`: split at every single space, keeping empty
pieces; the empty string yields `[""]`. -/
def pySplitSpace : Str → List Str
  | [] => [[]]
  | c :: rest =>
    match pySplitSpace rest with
    | [] => []
    | t :: ts => if c = ' ' then [] :: t :: ts else (c :: t) :: ts

/-- A binary digit. -/
def isBit (c : Char) : Bool := c = '0' || c = '1'

/-- Value of a (most-significant-bit-first) binary digit string. -/
def bitsVal (s : Str) : Nat :=
  s.foldl (fun a c => 2 * a + (if c = '1' then 1 else 0)) 0

/-- Python `int(s, 2)`: the value of a non-empty all-`0`/`1` string, a
`ValueError` (`none`) otherwise.  (Python additionally accepts signs,
underscores and a `0b` prefix; no token exercised by the theorems below
uses those forms.) -/
def int2? (s : Str) : Option Nat :=
  if !s.isEmpty && s.all isBit then some (bitsVal s) else none

/-- Python `s.isnumeric()` on the ASCII tokens of a witness. -/
def py_isnumeric (s : Str) : Bool := !s.isEmpty && s.all Char.isDigit

/-- `re.match(r'[01]+', s)`: *prefix* match — succeeds iff the first
character is a binary digit. -/
def matches_bin_tok : Str → Bool
  | c :: _ => isBit c
  | [] => false

/-- `re.match(r'\[[01]+\]', s)`: prefix match — a leading `[`, one or
more binary digits, then `]` (backtracking never helps because `]` is not
a binary digit, so the greedy `takeWhile` reading is exact). -/
def matches_arr_tok : Str → Bool
  | '[' :: rest =>
    !(rest.takeWhile isBit).isEmpty && (rest.dropWhile isBit).head? == some ']'
  | _ => false

/-- `re.match(m ++ '[0-9]+', s)` for a literal marker character `m`
(`#` or `@`): prefix match — `m` then at least one digit. -/
def matches_marker (m : Char) : Str → Bool
  | c :: d :: _ => c == m && d.isDigit
  | _ => false

/-- `re.match(r'([bj][0-9]+\n?)', s)`: prefix match — `b` or `j` then at
least one digit. -/
def matches_prop_tok : Str → Bool
  | c :: d :: _ => (c == 'b' || c == 'j') && d.isDigit
  | _ => false

/-- The ways the Python process aborts during a parse. -/
inductive Err where
  /-- `parser_error(expected)`: prints the expected and found tokens and
  exits with code 3. -/
  | parserError (expected found : Str)
  /-- Uncaught `IndexError` from `symbols[0][0]` when the first buffered
  token is empty — exactly what happens on a blank line or at end of
  input, where `readline()` yields a string that strips to `""`. -/
  | indexError
  /-- Uncaught `ValueError` from `int(s, 2)` on a non-binary string. -/
  | valueError
  /-- Artifact of the embedding: budget for loop iterations exhausted.
  The source's loops consume at least one token per iteration, so any
  budget larger than the token count of the input behaves as no budget;
  concrete theorems use such budgets and never return this error. -/
  | outOfFuel
deriving DecidableEq, Repr

/-- Is this the `parser_error` exit path (exit code 3)? -/
def Err.isParserErr : Err → Bool
  | .parserError _ _ => true
  | _ => false

deriving instance DecidableEq for Except

/-- The two non-fatal diagnostics `generate_output` prints. -/
inductive Anomaly where
  /-- `"Warning: Frame <n> is invalid due to multiple input values!"` -/
  | multipleInputs (frameNumber : Str)
  /-- `"Input Overflow at Frame <n>"` — the `except OverflowError`
  handler; kept so the spec's predicted behaviour is expressible. -/
  | overflow (frameNumber : Str)
deriving DecidableEq, Repr

/-- The module-level mutable globals of the source. -/
structure PState where
  /-- Remaining lines of the `witness` input stream (newlines stripped;
  `readline()` at end of file returns the empty string). -/
  lines : List Str
  /-- `symbols`: the current line of the input split by blanks. -/
  symbols : List Str
  /-- `symbol`: the current symbol. -/
  symbol : Str
  /-- `props`: properties of the witness. -/
  props : List Str
  /-- `memory_constraints`: memory assignments encoded in the witness. -/
  memory_constraints : List (Nat × Nat)
  /-- `frame_content`: content of the current frame. -/
  frame_content : List Str
  /-- `frame_number`: the number of the current frame, kept as a string
  (the source initialises it to the integer `-1`, but every path that
  reads it first passes `parse_input_part`, which assigns a string). -/
  frame_number : Str
  /-- Character codes written to the `output` stream via `chr`. -/
  out : List Nat
  /-- Warnings printed by `generate_output`. -/
  warnings : List Anomaly
deriving DecidableEq, Repr

/-- Python `witness.readline()` (after the newline-stripping that always
follows it): the next line, or the empty string at end of file. -/
def readline : List Str → Str × List Str
  | [] => ([], [])
  | l :: ls => (l, ls)

/-- `line.strip().split(" ")` with `"\n"` appended — the refill step of
`get_symbol`. -/
def tokenizeLine (l : Str) : List Str := pySplitSpace (pyStrip l) ++ [['\n']]

/-- The `while symbols[0][0] == ";":` loop of `get_symbol`: discard
comment lines and read again.  `symbols[0][0]` on an empty first token
(blank line or end of file) raises `IndexError`; when the source is
exhausted, `readline()` yields the empty line, whose first token is
empty, so the unfolded loop iteration errors immediately. -/
def skip_comments : List Str → List Str → Except Err (List Str × List Str)
  | [], _ => .error .indexError
  | [] :: _, _ => .error .indexError
  | (c :: s) :: rest, lines =>
    if c = ';' then
      match lines with
      | [] => .error .indexError
      | l :: ls => skip_comments (tokenizeLine l) ls
    else .ok ((c :: s) :: rest, lines)

/-- `symbol = symbols.pop(0)`: pop the first buffered token into
`symbol` (after a successful comment skip the buffer is never empty, so
the empty case below is unreachable and kept only for totality). -/
def pop_first (st : PState) : Except Err (List Str × List Str) → Except Err PState
  | .error e => .error e
  | .ok ([], _) => .error .indexError
  | .ok (s :: rest, lines) =>
    .ok { st with lines := lines, symbols := rest, symbol := s }

/-- `get_symbol()`: refill the token buffer from the next line when it is
empty, skip comment lines, then pop the first buffered token into
`symbol`. -/
def get_symbol (st : PState) : Except Err PState :=
  match st.symbols with
  | [] =>
    let (l, ls) := readline st.lines
    pop_first st (skip_comments (tokenizeLine l) ls)
  | s :: rest => pop_first st (skip_comments (s :: rest) st.lines)

/-- The byte-writing loop of `generate_output`:
`for i in range(int(len(frame)/8), 0, -1): output.write(chr(int(frame[(i-1)*8 : i*8], 2)))`.
With `j := i - 1` the loop visits `j = len/8 - 1, …, 0`. -/
def chr_codes (f : Str) : List Nat :=
  (List.range (f.length / 8)).reverse.map
    (fun j => bitsVal ((f.drop (j * 8)).take 8))

/-- `int(x, 2)` applied to every element of the frame (the evaluation the
filter of `generate_output` performs on the whole list): `none` when any
element raises `ValueError`. -/
def frameVals : List Str → Option (List Nat)
  | [] => some []
  | x :: rest =>
    match int2? x with
    | none => none
    | some v =>
      match frameVals rest with
      | none => none
      | some vs => some (v :: vs)

/-- `generate_output(frame)`: filter out zero-valued bit-vectors, warn on
more than one survivor, otherwise decode the single survivor into bytes.
`int(x, 2)` is evaluated on every element by the filter, so any
non-binary element raises `ValueError`; checking all elements first
(`frameVals`) and then filtering is observably the same.  The
`try`/`except OverflowError` of the source is unreachable — the slices
fed to `int` are non-empty all-binary strings and `chr` receives values
below 256 — so the translation has no error case inside the loop. -/
def generate_output (frame : List Str) (frame_number : Str) :
    Except Err (List Nat × List Anomaly) :=
  match frameVals frame with
  | none => .error .valueError
  | some _ =>
    let nz := frame.filter (fun x => (int2? x).getD 0 != 0)
    if nz.length > 1 then
      .ok ([], [.multipleInputs frame_number])
    else
      match nz with
      | [f] => .ok (chr_codes f, [])
      | _ => .ok ([], [])

/-- `parse_array_assignment()`: `"[" binary_string "]" binary_string`. -/
def parse_array_assignment (st : PState) : Except Err PState :=
  match int2? (pyStripChars ['[', ']'] st.symbol) with
  | none => .error .valueError
  | some memory_address => do
    let st ← get_symbol st
    if matches_bin_tok st.symbol then
      match int2? st.symbol with
      | none => .error .valueError
      | some value => do
        let st ← get_symbol st
        .ok { st with
              memory_constraints :=
                st.memory_constraints ++ [(memory_address, value)] }
    else .error (.parserError ['b','i','n','a','r','y',' ','s','t','r','i','n','g'] st.symbol)

/-- `parse_bv_assignment()`: `binary_string`. -/
def parse_bv_assignment (st : PState) : Except Err PState :=
  if matches_bin_tok st.symbol then
    get_symbol { st with frame_content := st.frame_content ++ [st.symbol] }
  else .error (.parserError ['b','i','n','a','r','y',' ','s','t','r','i','n','g'] st.symbol)

/-- `parse_assignment()`: array or plain bit-vector assignment, then the
optional trailing symbolic name, consumed when exactly one buffered token
(the newline marker) remains ahead of it. -/
def parse_assignment (st : PState) : Except Err PState := do
  let st ← (if matches_arr_tok st.symbol then parse_array_assignment st
            else parse_bv_assignment st)
  if st.symbols.length = 1 then get_symbol st else .ok st

/-- `parse_model()`: `while symbol.isnumeric():` parse an assignment and
its terminating newline.  `fuel` bounds the number of loop iterations and
is checked only after the guard, so a non-numeric symbol returns at once
for every budget. -/
def parse_model (fuel : Nat) (st : PState) : Except Err PState :=
  if py_isnumeric st.symbol then
    match fuel with
    | 0 => .error .outOfFuel
    | fuel + 1 => do
      let st ← get_symbol st
      let st ← parse_assignment st
      if st.symbol = ['\n'] then do
        let st ← get_symbol st
        parse_model fuel st
      else .error (.parserError ['\n'] st.symbol)
  else .ok st

/-- `parse_state_part()`: optional `"#" uint "\n" model`; when the symbol
does not match — or the `#` marker is not followed by a newline — the
function silently returns. -/
def parse_state_part (fuel : Nat) (st : PState) : Except Err PState :=
  if matches_marker '#' st.symbol then do
    let st ← get_symbol st
    if st.symbol = ['\n'] then do
      let st ← get_symbol st
      parse_model fuel st
    else .ok st
  else .ok st

/-- `parse_input_part()`: mandatory `"@" uint "\n" model`; records the
frame number (`symbol.strip('@')`). -/
def parse_input_part (fuel : Nat) (st : PState) : Except Err PState :=
  if matches_marker '@' st.symbol then do
    let st ← get_symbol { st with
                          frame_number := pyStripChars ['@'] st.symbol }
    if st.symbol = ['\n'] then do
      let st ← get_symbol st
      parse_model fuel st
    else .error (.parserError ['\n'] st.symbol)
  else .error (.parserError ['@','u','i','n','t'] st.symbol)

/-- `parse_frame()`: reset the frame, parse the optional state part and
the input part, then hand the collected frame to `generate_output`. -/
def parse_frame (fuel : Nat) (st : PState) : Except Err PState := do
  let st ← parse_state_part fuel { st with frame_content := [] }
  let st ← parse_input_part fuel st
  match generate_output st.frame_content st.frame_number with
  | .error e => .error e
  | .ok (bs, ws) =>
    .ok { st with out := st.out ++ bs, warnings := st.warnings ++ ws }

/-- `parse_prop()`: `("b"|"j") uint`; records `symbol.strip()`. -/
def parse_prop (st : PState) : Except Err PState :=
  if matches_prop_tok st.symbol then
    get_symbol { st with props := st.props ++ [pyStrip st.symbol] }
  else .error (.parserError ['W','i','t','n','e','s','s',' ','P','r','o','p','e','r','t','y'] st.symbol)

/-- The `while symbol != "\n": parse_prop()` loop of `parse_header`. -/
def prop_loop (fuel : Nat) (st : PState) : Except Err PState :=
  if st.symbol = ['\n'] then .ok st
  else
    match fuel with
    | 0 => .error .outOfFuel
    | fuel + 1 => do
      let st ← parse_prop st
      prop_loop fuel st

/-- `parse_header()`: literal `sat`, a newline, the property loop, then
one more `get_symbol()`. -/
def parse_header (fuel : Nat) (st : PState) : Except Err PState :=
  if st.symbol = ['s','a','t'] then do
    let st ← get_symbol st
    if st.symbol = ['\n'] then do
      let st ← get_symbol st
      let st ← prop_loop fuel st
      get_symbol st
    else .error (.parserError ['\n'] st.symbol)
  else .error (.parserError ['s','a','t'] st.symbol)

/-- The `while symbol != ".": parse_frame()` loop of `parse_witness`. -/
def frame_loop (fuel : Nat) (st : PState) : Except Err PState :=
  if st.symbol = ['.'] then .ok st
  else
    match fuel with
    | 0 => .error .outOfFuel
    | fuel + 1 => do
      let st ← parse_frame fuel st
      frame_loop fuel st

/-- `parse_witness()`: initial `get_symbol()`, the header, then frames
until the terminator. -/
def parse_witness (fuel : Nat) (st : PState) : Except Err PState := do
  let st ← get_symbol st
  let st ← parse_header fuel st
  frame_loop fuel st

/-- The state at the start of a parse: the whole witness unread, every
accumulator empty (`frame_number = -1` rendered as its display string). -/
def initState (lines : List Str) : PState :=
  { lines := lines, symbols := [], symbol := [],
    props := [], memory_constraints := [], frame_content := [],
    frame_number := ['-', '1'], out := [], warnings := [] }

/-- The literal witness text of claim C3 — `sat\nb4\n\n@0\n1 00000000\n.` —
split into lines with newlines stripped (the blank line is `[]`). -/
def C3input : List Str :=
  [['s','a','t'], ['b','4'], [], ['@','0'],
   ['1',' ','0','0','0','0','0','0','0','0'], ['.']]

/-- A witness whose frame holds the non-binary token `01x` in bit-vector
assignment position: `sat\nb0\n@0\n1 01x\n.`. -/
def C6input : List Str :=
  [['s','a','t'], ['b','0'], ['@','0'], ['1',' ','0','1','x'], ['.']]

/-- What the surrounding program consumes from a finished parse: the
property list, the memory constraints, the decoded byte stream and the
printed warnings. -/
structure ParseResult where
  props : List Str
  memory_constraints : List (Nat × Nat)
  out : List Nat
  warnings : List Anomaly
deriving DecidableEq, Repr

/-- Project the caller-visible result out of a finished parse. -/
def resultOf (r : Except Err PState) : Except Err ParseResult :=
  r.map (fun st => ⟨st.props, st.memory_constraints, st.out, st.warnings⟩)

/-- The low `w` bits of `n`, least significant first. -/
def natToBitsLE : Nat → Nat → Str
  | 0, _ => []
  | w + 1, n => (if n % 2 = 1 then '1' else '0') :: natToBitsLE w (n / 2)

/-- Modelled from the spec's round-trip law: the 8-bit binary encoding of
a byte, most-significant-bit first — the re-encoding against which the
decoded bytes are compared. -/
def byteEncode (n : Nat) : Str := (natToBitsLE 8 n).reverse

/-- Insert one extra line before position `i` of a line list (a comment
inserted at a line boundary of the witness text). -/
def insertLine (i : Nat) (c : Str) (ls : List Str) : List Str :=
  ls.take i ++ c :: ls.drop i

/-- A full-line comment: after stripping, the first character of the line
is `;`, so the first token of the tokenized line starts with `;`. -/
def isCommentLine (c : Str) : Bool :=
  match pyStrip c with
  | d :: _ => d == ';'
  | [] => false

/-- Two remaining-line lists that differ by at most one comment line still
to be read: equal, or the second has `c` inserted at one line boundary. -/
def LinesRel (c : Str) (L L' : List Str) : Prop :=
  L' = L ∨ ∃ i, L' = insertLine i c L

/-- Two parser states that agree everywhere except that the second one's
unread input may contain one extra comment line. -/
structure StRel (c : Str) (st st' : PState) : Prop where
  symbols : st'.symbols = st.symbols
  symbol : st'.symbol = st.symbol
  props : st'.props = st.props
  mc : st'.memory_constraints = st.memory_constraints
  fc : st'.frame_content = st.frame_content
  fn : st'.frame_number = st.frame_number
  out : st'.out = st.out
  warnings : st'.warnings = st.warnings
  lines : LinesRel c st.lines st'.lines

/-- The results of `skip_comments` on `StRel`-related inputs: identical
errors, or identical buffers with `LinesRel`-related remaining lines. -/
inductive SkipRel (c : Str) :
    Except Err (List Str × List Str) → Except Err (List Str × List Str) → Prop where
  | err (e : Err) : SkipRel c (.error e) (.error e)
  | ok (b : List Str) {L L' : List Str} (h : LinesRel c L L') :
      SkipRel c (.ok (b, L)) (.ok (b, L'))

/-- The results of a parse step on `StRel`-related states: identical
errors, or `StRel`-related result states. -/
inductive ExcRel (c : Str) : Except Err PState → Except Err PState → Prop where
  | err (e : Err) : ExcRel c (.error e) (.error e)
  | ok {t t' : PState} (h : StRel c t t') : ExcRel c (.ok t) (.ok t')

/-! Small evaluation lemmas for the `Except` plumbing. -/

@[simp] theorem ok_bind (a : PState) (f : PState → Except Err PState) :
    (Except.ok a >>= f : Except Err PState) = f a := rfl

@[simp] theorem error_bind (e : Err) (f : PState → Except Err PState) :
    (Except.error e >>= f : Except Err PState) = .error e := rfl

/-! ### One-step unfolding of the three parse loops -/

theorem prop_loop_stop (fuel : Nat) (st : PState) (h : st.symbol = ['\n']) :
    prop_loop fuel st = .ok st := by
  cases fuel <;> simp [prop_loop, h]

theorem prop_loop_go (fuel : Nat) (st : PState) (hf : fuel ≠ 0)
    (h : ¬ st.symbol = ['\n']) :
    prop_loop fuel st = parse_prop st >>= fun s => prop_loop (fuel - 1) s := by
  cases fuel with
  | zero => exact absurd rfl hf
  | succ n => simp [prop_loop, h]

theorem parse_model_stop (fuel : Nat) (st : PState)
    (h : py_isnumeric st.symbol = false) :
    parse_model fuel st = .ok st := by
  cases fuel <;> simp [parse_model, h]

theorem parse_model_go (fuel : Nat) (st : PState) (hf : fuel ≠ 0)
    (h : py_isnumeric st.symbol = true) :
    parse_model fuel st =
      (get_symbol st >>= fun s => parse_assignment s >>= fun s =>
        if s.symbol = ['\n'] then get_symbol s >>= fun s => parse_model (fuel - 1) s
        else .error (.parserError ['\n'] s.symbol)) := by
  cases fuel with
  | zero => exact absurd rfl hf
  | succ n => simp [parse_model, h]

theorem frame_loop_stop (fuel : Nat) (st : PState) (h : st.symbol = ['.']) :
    frame_loop fuel st = .ok st := by
  cases fuel <;> simp [frame_loop, h]

theorem frame_loop_go (fuel : Nat) (st : PState) (hf : fuel ≠ 0)
    (h : ¬ st.symbol = ['.']) :
    frame_loop fuel st = parse_frame (fuel - 1) st >>= fun s => frame_loop (fuel - 1) s := by
  cases fuel with
  | zero => exact absurd rfl hf
  | succ n => simp [frame_loop, h]

/-! ### Frame decoder: evaluation of `int(x, 2)` and the zero filter -/

theorem int2?_valid (s : Str) (h1 : s ≠ []) (h2 : s.all isBit = true) :
    int2? s = some (bitsVal s) := by
  cases s with
  | nil => exact absurd rfl h1
  | cons a t => simp [int2?, h2]

theorem frameVals_valid (frame : List Str)
    (h : ∀ s ∈ frame, s ≠ [] ∧ s.all isBit = true) :
    frameVals frame = some (frame.map bitsVal) := by
  induction frame with
  | nil => rfl
  | cons a t ih =>
    have ha := h a (by simp)
    simp [frameVals, int2?_valid a ha.1 ha.2,
          ih (fun s hs => h s (by simp [hs]))]

theorem nz_filter_eq (frame : List Str)
    (h : ∀ s ∈ frame, s ≠ [] ∧ s.all isBit = true) :
    frame.filter (fun x => (int2? x).getD 0 != 0) =
      frame.filter (fun s => bitsVal s != 0) := by
  apply List.filter_congr
  intro a ha
  rw [int2?_valid a (h a ha).1 (h a ha).2]
  rfl

theorem generate_output_single (f : Str) (fn : Str)
    (h1 : f ≠ []) (h2 : f.all isBit = true) (hnz : bitsVal f ≠ 0) :
    generate_output [f] fn = .ok (chr_codes f, []) := by
  have hvalid : ∀ s ∈ ([f] : List Str), s ≠ [] ∧ s.all isBit = true := by
    intro s hs
    rw [List.mem_singleton] at hs
    subst hs
    exact ⟨h1, h2⟩
  have hfil : ([f] : List Str).filter (fun x => (int2? x).getD 0 != 0) = [f] := by
    rw [nz_filter_eq [f] hvalid]
    simp [hnz]
  simp [generate_output, frameVals_valid [f] hvalid, hfil]

theorem generate_output_ge2 (frame : List Str) (fn : Str)
    (hv : ∀ s ∈ frame, s ≠ [] ∧ s.all isBit = true)
    (h2 : 2 ≤ (frame.filter (fun s => bitsVal s != 0)).length) :
    generate_output frame fn = .ok ([], [.multipleInputs fn]) := by
  have hgt : (frame.filter (fun s => bitsVal s != 0)).length > 1 := by omega
  simp [generate_output, frameVals_valid frame hv, nz_filter_eq frame hv, hgt]

theorem generate_output_all_zero (frame : List Str) (fn : Str)
    (hv : ∀ s ∈ frame, s ≠ [] ∧ s.all isBit = true)
    (hz : ∀ s ∈ frame, bitsVal s = 0) :
    generate_output frame fn = .ok ([], []) := by
  have hnil : frame.filter (fun s => bitsVal s != 0) = [] := by
    simp only [List.filter_eq_nil_iff]
    intro a ha
    simp [hz a ha]
  simp [generate_output, frameVals_valid frame hv, nz_filter_eq frame hv, hnil]

theorem generate_output_filter_inv (frame : List Str) (fn : Str)
    (hv : ∀ s ∈ frame, s ≠ [] ∧ s.all isBit = true) :
    generate_output frame fn =
      generate_output (frame.filter (fun s => bitsVal s != 0)) fn := by
  have hv' : ∀ s ∈ frame.filter (fun s => bitsVal s != 0),
      s ≠ [] ∧ s.all isBit = true :=
    fun s hs => hv s (List.mem_of_mem_filter hs)
  simp only [generate_output, frameVals_valid frame hv, frameVals_valid _ hv',
             nz_filter_eq frame hv, nz_filter_eq _ hv']
  rw [List.filter_filter]
  simp

/-! ### Bit strings, byte groups and the byte-writing loop -/

theorem bitsVal_append (l : Str) (c : Char) :
    bitsVal (l ++ [c]) = 2 * bitsVal l + (if c = '1' then 1 else 0) := by
  simp [bitsVal, List.foldl_append]

theorem natToBitsLE_bitsVal (g : Str) (hb : g.all isBit = true) :
    natToBitsLE g.length (bitsVal g) = g.reverse := by
  induction g using List.reverseRecOn with
  | nil => rfl
  | append_singleton ys c ih =>
    rw [List.all_append, Bool.and_eq_true] at hb
    obtain ⟨hys, hc⟩ := hb
    have hcbit : c = '0' ∨ c = '1' := by
      have := List.all_eq_true.1 hc c (by simp)
      simpa [isBit] using this
    have hlen : (ys ++ [c]).length = ys.length + 1 := by simp
    rw [hlen, bitsVal_append]
    rcases hcbit with h0 | h1
    · subst h0
      simp only [show (if ('0' : Char) = '1' then 1 else 0) = 0 from rfl, Nat.add_zero]
      have e1 : ¬ ((2 * bitsVal ys) % 2 = 1) := by omega
      have e2 : (2 * bitsVal ys) / 2 = bitsVal ys := by omega
      simp [natToBitsLE, e1, e2, ih hys, List.reverse_append]
    · subst h1
      simp only [show (if ('1' : Char) = '1' then 1 else 0) = 1 from rfl]
      have e1 : (2 * bitsVal ys + 1) % 2 = 1 := by omega
      have e2 : (2 * bitsVal ys + 1) / 2 = bitsVal ys := by omega
      simp [natToBitsLE, e1, e2, ih hys, List.reverse_append]

theorem byteEncode_bitsVal (g : Str) (h8 : g.length = 8) (hb : g.all isBit = true) :
    byteEncode (bitsVal g) = g := by
  rw [byteEncode, ← h8, natToBitsLE_bitsVal g hb, List.reverse_reverse]

theorem flatten_length_eight (gs : List Str) (h : ∀ g ∈ gs, g.length = 8) :
    gs.flatten.length = 8 * gs.length := by
  induction gs with
  | nil => rfl
  | cons g t ih =>
    rw [List.flatten_cons, List.length_append, h g (by simp),
        ih (fun g' hg' => h g' (by simp [hg'])), List.length_cons]
    ring

theorem flatten_all_isBit (gs : List Str) (h : ∀ g ∈ gs, g.all isBit = true) :
    gs.flatten.all isBit = true := by
  induction gs with
  | nil => rfl
  | cons g t ih =>
    rw [List.flatten_cons, List.all_append]
    simp [h g (by simp), ih (fun g' hg' => h g' (by simp [hg']))]

theorem chr_codes_flatten (gs : List Str) (hg : ∀ g ∈ gs, g.length = 8) :
    ∀ r : Str, r.length < 8 →
      chr_codes (gs.flatten ++ r) = gs.reverse.map bitsVal := by
  induction gs using List.reverseRecOn with
  | nil =>
    intro r hr
    have : r.length / 8 = 0 := Nat.div_eq_of_lt hr
    simp [chr_codes, this]
  | append_singleton ys g ih =>
    intro r hr
    have hys : ∀ g' ∈ ys, g'.length = 8 := fun g' h' => hg g' (by simp [h'])
    have hg8 : g.length = 8 := hg g (by simp)
    have hlen : ys.flatten.length = 8 * ys.length := flatten_length_eight ys hys
    have hS : (ys ++ [g]).flatten ++ r = ys.flatten ++ (g ++ r) := by
      simp [List.flatten_append]
    have hdiv : (ys.flatten ++ (g ++ r)).length / 8 = ys.length + 1 := by
      rw [List.length_append, List.length_append, hlen, hg8]
      omega
    rw [hS]
    rw [chr_codes, hdiv, List.range_succ, List.reverse_append]
    simp only [List.reverse_cons, List.reverse_nil, List.nil_append,
               List.singleton_append, List.map_cons]
    have hhead : ((ys.flatten ++ (g ++ r)).drop (ys.length * 8)).take 8 = g := by
      have e : ys.length * 8 = ys.flatten.length := by omega
      rw [e, List.drop_left]
      rw [show (8 : Nat) = g.length from hg8.symm, List.take_left]
    rw [hhead]
    have htail : (List.range ys.length).reverse.map
          (fun j => bitsVal (((ys.flatten ++ (g ++ r)).drop (j * 8)).take 8)) =
        (List.range ys.length).reverse.map
          (fun j => bitsVal ((ys.flatten.drop (j * 8)).take 8)) := by
      apply List.map_congr_left
      intro j hj
      have hjlt : j < ys.length := by
        rw [List.mem_reverse, List.mem_range] at hj
        exact hj
      have hsub : j * 8 - ys.flatten.length = 0 := by omega
      have hXlen : (ys.flatten.drop (j * 8)).length = ys.flatten.length - j * 8 := by
        simp
      have h8le : 8 ≤ (ys.flatten.drop (j * 8)).length := by omega
      rw [List.drop_append_eq_append_drop, hsub, List.drop_zero,
          List.take_append_eq_append_take, Nat.sub_eq_zero_of_le h8le,
          List.take_zero, List.append_nil]
    rw [htail]
    have hchr : chr_codes ys.flatten = (List.range ys.length).reverse.map
        (fun j => bitsVal ((ys.flatten.drop (j * 8)).take 8)) := by
      rw [chr_codes, hlen, Nat.mul_div_cancel_left _ (by norm_num : (0:Nat) < 8)]
    rw [← hchr]
    have := ih hys [] (by simp)
    rw [List.append_nil] at this
    rw [this]
    simp [List.reverse_append]

/-! ### Claims C1, C2, C5, C7 — the frame decoder -/

/-- C1, counterexample: for the 16-bit value `0000000100000010` the code
emits the bytes `[2, 1]` — the least-significant (rightmost) 8-bit group
first — not `[1, 2]` as the claimed highest-order-group-first,
natural-string-order emission would give, and concatenating the 8-bit
encodings of the emitted bytes in emission order does not reproduce the
original bit string. -/
theorem C1_counterexample :
    generate_output [['0','0','0','0','0','0','0','1','0','0','0','0','0','0','1','0']] ['0'] =
      .ok ([2, 1], []) ∧
    ([2, 1] : List Nat) ≠ [1, 2] ∧
    (([2, 1] : List Nat).map byteEncode).flatten ≠
      ['0','0','0','0','0','0','0','1','0','0','0','0','0','0','1','0'] :=
  ⟨by rfl, by decide, by decide⟩

/-- C1 (amended): for every frame whose sole non-zero bit-vector is a
binary string of length a positive multiple of 8, decoding splits the
string into consecutive 8-bit groups, produces exactly `length/8` bytes
(each byte the unsigned value of its group, most-significant-bit first),
emits them from the LOWEST-order (rightmost) group to the highest-order
(leftmost) — the reverse of natural string byte order — and concatenating
the 8-bit binary encodings of the emitted bytes in REVERSE emission order
reproduces the original bit-vector string. -/
theorem C1_amended_theorem (groups : List Str) (fn : Str)
    (_hne : groups ≠ [])
    (hg : ∀ g ∈ groups, g.length = 8 ∧ g.all isBit = true)
    (hnz : bitsVal groups.flatten ≠ 0) :
    generate_output [groups.flatten] fn = .ok (groups.reverse.map bitsVal, []) ∧
    (groups.reverse.map bitsVal).length = groups.flatten.length / 8 ∧
    ((groups.reverse.map bitsVal).reverse.map byteEncode).flatten = groups.flatten := by
  have hg8 : ∀ g ∈ groups, g.length = 8 := fun g h => (hg g h).1
  have hgb : ∀ g ∈ groups, g.all isBit = true := fun g h => (hg g h).2
  have hlen : groups.flatten.length = 8 * groups.length := flatten_length_eight groups hg8
  have hfne : groups.flatten ≠ [] := by
    intro h
    exact hnz (by rw [h]; rfl)
  have hfb := flatten_all_isBit groups hgb
  have h1 : generate_output [groups.flatten] fn = .ok (chr_codes groups.flatten, []) :=
    generate_output_single _ fn hfne hfb hnz
  have hchr : chr_codes groups.flatten = groups.reverse.map bitsVal := by
    have h := chr_codes_flatten groups hg8 [] (by simp)
    rwa [List.append_nil] at h
  refine ⟨hchr ▸ h1, ?_, ?_⟩
  · rw [List.length_map, List.length_reverse, hlen]
    omega
  · simp only [List.map_reverse, List.reverse_reverse, List.map_map]
    have h : groups.map (byteEncode ∘ bitsVal) = groups.map id :=
      List.map_congr_left
        (fun g hgm => by simp [byteEncode_bitsVal g (hg g hgm).1 (hg g hgm).2])
    rw [h, List.map_id]

/-- C1, witness: two groups `00000001` and `00000010` (value 258) decode
to the bytes `[2, 1]`, obtained by applying the amended theorem at this
input. -/
theorem C1_amended_witness :
    generate_output [['0','0','0','0','0','0','0','1','0','0','0','0','0','0','1','0']] ['7'] =
      .ok ([2, 1], []) := by
  have h := ( C1_amended_theorem
    [['0','0','0','0','0','0','0','1'], ['0','0','0','0','0','0','1','0']] ['7']
    (by decide) (by decide) (by decide)).1
  rwa [show ([['0','0','0','0','0','0','0','1'], ['0','0','0','0','0','0','1','0']] :
          List Str).flatten =
        ['0','0','0','0','0','0','0','1','0','0','0','0','0','0','1','0'] from rfl,
      show ([['0','0','0','0','0','0','0','1'], ['0','0','0','0','0','0','1','0']] :
          List Str).reverse.map bitsVal = [2, 1] from rfl] at h

/-- C2, counterexample: the 9-bit value `100000001` (257) emits one byte,
128 — decoded from the leading 8 bits, the trailing bit silently dropped —
and raises no anomaly, not zero bytes and one `OverflowAnomaly` as
claimed. -/
theorem C2_counterexample :
    generate_output [['1','0','0','0','0','0','0','0','1']] ['0'] = .ok ([128], []) ∧
    generate_output [['1','0','0','0','0','0','0','0','1']] ['0'] ≠
      .ok ([], [Anomaly.overflow ['0']]) :=
  ⟨by rfl, by decide⟩

/-- C2 (amended): for every frame whose sole non-zero bit-vector has a
bit-length that is NOT a positive multiple of 8, decoding emits exactly
`⌊length/8⌋` bytes — decoded from the leading complete 8-bit groups, the
trailing `length mod 8` bits silently discarded — and raises no anomaly
(in particular no `OverflowAnomaly`); the parse continues.  A value
shorter than 8 bits yields zero bytes. -/
theorem C2_amended_theorem (groups : List Str) (r : Str) (fn : Str)
    (hg : ∀ g ∈ groups, g.length = 8 ∧ g.all isBit = true)
    (hrne : r ≠ []) (hrlt : r.length < 8) (hrb : r.all isBit = true)
    (hnz : bitsVal (groups.flatten ++ r) ≠ 0) :
    generate_output [groups.flatten ++ r] fn = .ok (groups.reverse.map bitsVal, []) ∧
    (groups.reverse.map bitsVal).length = (groups.flatten ++ r).length / 8 ∧
    ¬ (8 ∣ (groups.flatten ++ r).length) := by
  have hg8 : ∀ g ∈ groups, g.length = 8 := fun g h => (hg g h).1
  have hgb : ∀ g ∈ groups, g.all isBit = true := fun g h => (hg g h).2
  have hlen : groups.flatten.length = 8 * groups.length := flatten_length_eight groups hg8
  have hfne : groups.flatten ++ r ≠ [] := by
    simp [hrne]
  have hfb : (groups.flatten ++ r).all isBit = true := by
    rw [List.all_append]
    simp [flatten_all_isBit groups hgb, hrb]
  have h1 := generate_output_single (groups.flatten ++ r) fn hfne hfb hnz
  have hchr := chr_codes_flatten groups hg8 r hrlt
  have hrpos : 0 < r.length := List.length_pos.2 hrne
  refine ⟨hchr ▸ h1, ?_, ?_⟩
  · rw [List.length_map, List.length_reverse, List.length_append, hlen]
    omega
  · rw [List.length_append, hlen]
    rintro ⟨k, hk⟩
    omega

/-- C2, witness: the 9-bit value `100000001` decodes to the single byte
128 with no anomaly, its length not a multiple of 8, by the amended
theorem. -/
theorem C2_amended_witness :
    generate_output [['1','0','0','0','0','0','0','0','1']] ['9'] = .ok ([128], []) ∧
    ¬ (8 ∣ (['1','0','0','0','0','0','0','0','1'] : Str).length) := by
  obtain ⟨h1, -, h3⟩ := C2_amended_theorem [['1','0','0','0','0','0','0','0']] ['1'] ['9']
    (by decide) (by decide) (by decide) (by decide) (by decide)
  refine ⟨?_, ?_⟩
  · rwa [show ([['1','0','0','0','0','0','0','0']] : List Str).flatten ++ ['1'] =
          ['1','0','0','0','0','0','0','0','1'] from rfl,
        show ([['1','0','0','0','0','0','0','0']] : List Str).reverse.map bitsVal =
          [128] from rfl] at h1
  · rwa [show ([['1','0','0','0','0','0','0','0']] : List Str).flatten ++ ['1'] =
          ['1','0','0','0','0','0','0','0','1'] from rfl] at h3

/-- C5: for every frame in which two or more non-zero bit-vectors remain
after zero-filtering, decoding produces zero output bytes and exactly one
`MultipleInputsAnomaly`, regardless of the vectors' values, and the
decoder returns normally so parsing of subsequent frames continues. -/
theorem C5_multiple_inputs (frame : List Str) (fn : Str)
    (hv : ∀ s ∈ frame, s ≠ [] ∧ s.all isBit = true)
    (h2 : 2 ≤ (frame.filter (fun s => bitsVal s != 0)).length) :
    generate_output frame fn = .ok ([], [.multipleInputs fn]) :=
  generate_output_ge2 frame fn hv h2

/-- C5, witness: the frame `["1", "10"]` — two non-zero vectors — yields
no bytes and exactly one `MultipleInputsAnomaly`. -/
theorem C5_multiple_inputs_witness :
    generate_output [['1'], ['1','0']] ['3'] = .ok ([], [.multipleInputs ['3']]) :=
  C5_multiple_inputs [['1'], ['1','0']] ['3'] (by decide) (by decide)

/-- C7: zero-valued bit-vectors are filtered out before decoding — the
decoder's result on a frame equals its result on the frame's non-zero
sublist — so a frame whose bit-vectors are all zero-valued contributes no
bytes and raises no anomaly. -/
theorem C7_zero_filtered (frame : List Str) (fn : Str)
    (hv : ∀ s ∈ frame, s ≠ [] ∧ s.all isBit = true) :
    generate_output frame fn =
      generate_output (frame.filter (fun s => bitsVal s != 0)) fn ∧
    ((∀ s ∈ frame, bitsVal s = 0) → generate_output frame fn = .ok ([], [])) :=
  ⟨generate_output_filter_inv frame fn hv,
   fun hz => generate_output_all_zero frame fn hv hz⟩

/-- C7, witness: the all-zero frame `["0", "00000000"]` yields no bytes
and no anomaly. -/
theorem C7_zero_filtered_witness :
    generate_output [['0'], ['0','0','0','0','0','0','0','0']] ['2'] = .ok ([], []) :=
  (C7_zero_filtered [['0'], ['0','0','0','0','0','0','0','0']] ['2'] (by decide)).2
    (by decide)

/-! ### The tokenizer only touches `lines`, `symbols` and `symbol` -/

theorem pop_first_preserves (st : PState) (r : Except Err (List Str × List Str))
    (st' : PState) (h : pop_first st r = .ok st') :
    st'.props = st.props ∧ st'.memory_constraints = st.memory_constraints ∧
    st'.frame_content = st.frame_content ∧ st'.frame_number = st.frame_number ∧
    st'.out = st.out ∧ st'.warnings = st.warnings := by
  cases r with
  | error e => simp [pop_first] at h
  | ok p =>
    obtain ⟨b, lines⟩ := p
    cases b with
    | nil => simp [pop_first] at h
    | cons s rest =>
      simp only [pop_first, Except.ok.injEq] at h
      subst h
      exact ⟨rfl, rfl, rfl, rfl, rfl, rfl⟩

theorem get_symbol_preserves (st st' : PState) (h : get_symbol st = .ok st') :
    st'.props = st.props ∧ st'.memory_constraints = st.memory_constraints ∧
    st'.frame_content = st.frame_content ∧ st'.frame_number = st.frame_number ∧
    st'.out = st.out ∧ st'.warnings = st.warnings := by
  rw [get_symbol] at h
  cases hsym : st.symbols with
  | nil =>
    rw [hsym] at h
    exact pop_first_preserves st _ st' h
  | cons s rest =>
    rw [hsym] at h
    exact pop_first_preserves st _ st' h

/-! ### Evaluating Python `strip(cs)` on marker and bracket tokens -/

theorem dropWhile_append_true (q : Char → Bool) (pre x : List Char)
    (h : ∀ c ∈ pre, q c = true) : (pre ++ x).dropWhile q = x.dropWhile q := by
  induction pre with
  | nil => rfl
  | cons c t ih =>
    simp [List.dropWhile_cons, h c (by simp),
          ih (fun c' hc' => h c' (by simp [hc']))]

theorem dropWhile_all_false (q : Char → Bool) (s : List Char)
    (h : ∀ c ∈ s, q c = false) : s.dropWhile q = s := by
  cases s with
  | nil => rfl
  | cons a t => simp [List.dropWhile_cons, h a (by simp)]

theorem pyStripChars_sandwich (cs : List Char) (pre post mid : List Char)
    (hmid_ne : mid ≠ [])
    (hpre : ∀ c ∈ pre, cs.contains c = true)
    (hpost : ∀ c ∈ post, cs.contains c = true)
    (hmid : ∀ c ∈ mid, cs.contains c = false) :
    pyStripChars cs (pre ++ (mid ++ post)) = mid := by
  obtain ⟨b, mid', rfl⟩ : ∃ b m', mid = b :: m' := by
    cases mid with
    | nil => exact absurd rfl hmid_ne
    | cons b m' => exact ⟨b, m', rfl⟩
  simp only [pyStripChars]
  rw [dropWhile_append_true _ pre _ hpre, List.cons_append, List.dropWhile_cons,
      hmid b (by simp)]
  simp only [Bool.false_eq_true, if_false]
  rw [show (b :: (mid' ++ post)).reverse = post.reverse ++ (b :: mid').reverse from by
        simp [List.reverse_cons, List.reverse_append]]
  rw [dropWhile_append_true _ _ _ (fun c hc => hpost c (List.mem_reverse.1 hc))]
  rw [dropWhile_all_false _ _ (fun c hc => hmid c (List.mem_reverse.1 hc))]
  rw [List.reverse_reverse]

theorem bit_not_bracket (c : Char) (h : isBit c = true) :
    (['[', ']'] : List Char).contains c = false := by
  rcases (by simpa [isBit] using h : c = '0' ∨ c = '1') with h0 | h0 <;> subst h0 <;> rfl

theorem pyStripChars_brackets (a : Str) (ha : a ≠ []) (hb : a.all isBit = true) :
    pyStripChars ['[', ']'] ('[' :: (a ++ [']'])) = a := by
  have h := pyStripChars_sandwich ['[', ']'] ['['] [']'] a ha
    (by intro c hc; simp at hc; subst hc; rfl)
    (by intro c hc; simp at hc; subst hc; rfl)
    (fun c hc => bit_not_bracket c (List.all_eq_true.1 hb c hc))
  exact h

theorem pyStripChars_at_marker (d : Str) (hd : d ≠ [])
    (hdd : d.all Char.isDigit = true) :
    pyStripChars ['@'] ('@' :: d) = d := by
  have h := pyStripChars_sandwich ['@'] ['@'] [] d hd
    (by intro c hc; simp at hc; subst hc; rfl)
    (by intro c hc; simp at hc)
    (fun c hc => by
      have hcd := List.all_eq_true.1 hdd c hc
      have hne : c ≠ '@' := by
        intro he
        subst he
        exact absurd hcd (by decide)
      simp [List.contains_cons, hne])
  simpa using h

/-! ### Claim C8 — array-form assignments -/

/-- C8: an array-form assignment `[a] v` is recorded as a
`MemoryConstraint` whose address is the bracketed bit string `a` read as
unsigned binary and whose value is the following bit string `v` read as
unsigned binary, appended to the constraint list in encounter order; the
frame content and the output byte stream are untouched, so it is never
passed to the frame decoder and contributes nothing to the decoded
stream. -/
theorem C8_array_assignment (st st₁ st₂ : PState) (a v : Str)
    (ha : a ≠ []) (hab : a.all isBit = true)
    (hsym : st.symbol = '[' :: (a ++ [']']))
    (h1 : get_symbol st = .ok st₁)
    (hv : st₁.symbol = v) (hvne : v ≠ []) (hvb : v.all isBit = true)
    (h2 : get_symbol st₁ = .ok st₂) :
    parse_array_assignment st =
      .ok { st₂ with memory_constraints :=
              st₂.memory_constraints ++ [(bitsVal a, bitsVal v)] } ∧
    st₂.memory_constraints = st.memory_constraints ∧
    st₂.frame_content = st.frame_content ∧
    st₂.out = st.out := by
  obtain ⟨-, hm1, hf1, -, ho1, -⟩ := get_symbol_preserves st st₁ h1
  obtain ⟨-, hm2, hf2, -, ho2, -⟩ := get_symbol_preserves st₁ st₂ h2
  have hmb : matches_bin_tok v = true := by
    cases v with
    | nil => exact absurd rfl hvne
    | cons c t =>
      have hc : isBit c = true := List.all_eq_true.1 hvb c (by simp)
      simp [matches_bin_tok, hc]
  refine ⟨?_, hm2.trans hm1, hf2.trans hf1, ho2.trans ho1⟩
  simp only [parse_array_assignment, hsym, pyStripChars_brackets a ha hab,
             int2?_valid a ha hab, h1, ok_bind, hv, hmb, if_true,
             int2?_valid v hvne hvb, h2]

/-- C8, witness: the spec's instance — `[101] 11000001` yields
`MemoryConstraint(address = 5, value = 193)` and leaves the frame content
and byte stream empty. -/
theorem C8_array_assignment_witness :
    parse_array_assignment ⟨[], [['1','1','0','0','0','0','0','1'], ['\n']],
        ['[','1','0','1',']'], [], [], [], ['0'], [], []⟩ =
      .ok ⟨[], [], ['\n'], [], [(5, 193)], [], ['0'], [], []⟩ := by
  have h := (C8_array_assignment
    ⟨[], [['1','1','0','0','0','0','0','1'], ['\n']],
      ['[','1','0','1',']'], [], [], [], ['0'], [], []⟩
    ⟨[], [['\n']], ['1','1','0','0','0','0','0','1'], [], [], [], ['0'], [], []⟩
    ⟨[], [], ['\n'], [], [], [], ['0'], [], []⟩
    ['1','0','1'] ['1','1','0','0','0','0','0','1']
    (by decide) (by decide) (by rfl) (by rfl) (by rfl) (by decide) (by decide)
    (by rfl)).1
  exact h

/-! ### Unfolding `skip_comments` when the line list is symbolic -/

theorem skip_comments_stop (c : Char) (s : Str) (rest lines : List Str)
    (h : ¬ c = ';') :
    skip_comments ((c :: s) :: rest) lines = .ok ((c :: s) :: rest, lines) := by
  cases lines <;> simp [skip_comments, h]

theorem skip_comments_skip (s : Str) (rest : List Str) (l : Str) (ls : List Str) :
    skip_comments ((';' :: s) :: rest) (l :: ls) =
      skip_comments (tokenizeLine l) ls := by
  simp [skip_comments]

theorem skip_comments_empty_tok (rest lines : List Str) :
    skip_comments ([] :: rest) lines = .error .indexError := by
  cases lines <;> simp [skip_comments]

theorem skip_comments_nil_buffer (lines : List Str) :
    skip_comments [] lines = .error .indexError := by
  cases lines <;> simp [skip_comments]

theorem skip_comments_exhausted (s : Str) (rest : List Str) :
    skip_comments ((';' :: s) :: rest) [] = .error .indexError := by
  simp [skip_comments]

/-- `get_symbol` on a buffer holding just the newline marker: pop it. -/
theorem get_symbol_newline_buffer (w : PState) (hw : w.symbols = [['\n']]) :
    get_symbol w = .ok { w with symbols := [], symbol := ['\n'] } := by
  have h1 : get_symbol w = pop_first w (skip_comments [['\n']] w.lines) := by
    rw [get_symbol, hw]
  rw [h1, skip_comments_stop '\n' [] [] w.lines (by decide)]
  rfl

/-- `get_symbol` on an empty buffer with a non-comment line ahead:
refill from that line and pop its first token. -/
theorem get_symbol_fresh_line (w : PState) (l : Str) (rest : List Str)
    (tc : Char) (t' : Str) (ts2 : List Str)
    (hb : w.symbols = []) (hl : w.lines = l :: rest)
    (htok : tokenizeLine l = (tc :: t') :: ts2) (hc : ¬ tc = ';') :
    get_symbol w =
      .ok { w with lines := rest, symbols := ts2, symbol := tc :: t' } := by
  have h1 : get_symbol w = pop_first w (skip_comments (tokenizeLine l) rest) := by
    rw [get_symbol, hb, hl]
    rfl
  rw [h1, htok, skip_comments_stop tc t' ts2 rest hc]
  rfl

/-! ### Claim C4 — the tokenizer at end of input -/

/-- C4 counterexample: with the source exhausted and no terminator seen,
`get_symbol` aborts with the uncaught `IndexError`, which is *not* the
`parser_error`/exit-3 path the spec claims. -/
theorem C4_counterexample :
    get_symbol ⟨[], [], ['x'], [], [], [], ['-','1'], [], []⟩ = .error .indexError ∧
    Err.isParserErr .indexError = false :=
  ⟨by rfl, by rfl⟩

/-- C4 (amended): invoking `get_symbol` with an empty token buffer after
the underlying source is exhausted fails — but with an uncaught
`IndexError` that aborts the process, not with a `ParserError`. -/
theorem C4_amended_theorem (st : PState)
    (hbuf : st.symbols = []) (hsrc : st.lines = []) :
    get_symbol st = .error .indexError ∧
    Err.isParserErr .indexError = false := by
  refine ⟨?_, rfl⟩
  rw [get_symbol, hbuf, hsrc]
  rfl

theorem C4_amended_witness :
    get_symbol (initState []) = .error .indexError ∧
    Err.isParserErr .indexError = false :=
  C4_amended_theorem (initState []) (by rfl) (by rfl)

/-! ### Claim C10 — a frame with an empty input model -/

/-- C10: a frame whose input part has zero assignments — the `@<uint>`
marker, its newline, then a non-numeric symbol — parses successfully:
the model loop runs zero iterations (any fuel, including `0`), the frame
content stays empty, and `generate_output` emits no bytes and no
anomaly. -/
theorem C10_empty_model (fuel : Nat) (c tc : Char) (d' t' : Str)
    (ts : List Str) (l : Str) (rest ps : List Str)
    (ms : List (Nat × Nat)) (fc : List Str) (fn : Str)
    (os : List Nat) (ws : List Anomaly)
    (hdig : (c :: d').all Char.isDigit = true)
    (htok : pySplitSpace (pyStrip l) = (tc :: t') :: ts)
    (htc : ¬ tc = ';')
    (htn : py_isnumeric (tc :: t') = false) :
    parse_frame fuel ⟨l :: rest, [['\n']], '@' :: c :: d', ps, ms, fc, fn, os, ws⟩ =
      .ok ⟨rest, ts ++ [['\n']], tc :: t', ps, ms, [], c :: d', os, ws⟩ := by
  have hcd : c.isDigit = true := List.all_eq_true.1 hdig c (by simp)
  have hmS : matches_marker '#' ('@' :: c :: d') = false := by
    simp [matches_marker]
  have hmI : matches_marker '@' ('@' :: c :: d') = true := by
    simp [matches_marker, hcd]
  have hstrip : pyStripChars ['@'] ('@' :: c :: d') = c :: d' :=
    pyStripChars_at_marker (c :: d') (by simp) hdig
  have hgs1 : get_symbol (⟨l :: rest, [['\n']], '@' :: c :: d', ps, ms, [], c :: d', os, ws⟩ : PState) =
      .ok ⟨l :: rest, [], ['\n'], ps, ms, [], c :: d', os, ws⟩ := by
    have h := get_symbol_newline_buffer
      ⟨l :: rest, [['\n']], '@' :: c :: d', ps, ms, [], c :: d', os, ws⟩ rfl
    simpa using h
  have hgs2 : get_symbol (⟨l :: rest, [], ['\n'], ps, ms, [], c :: d', os, ws⟩ : PState) =
      .ok ⟨rest, ts ++ [['\n']], tc :: t', ps, ms, [], c :: d', os, ws⟩ := by
    have h := get_symbol_fresh_line
      ⟨l :: rest, [], ['\n'], ps, ms, [], c :: d', os, ws⟩ l rest tc t'
      (ts ++ [['\n']]) rfl rfl (by rw [tokenizeLine, htok]; rfl) htc
    simpa using h
  have hpm : parse_model fuel
      (⟨rest, ts ++ [['\n']], tc :: t', ps, ms, [], c :: d', os, ws⟩ : PState) =
      .ok ⟨rest, ts ++ [['\n']], tc :: t', ps, ms, [], c :: d', os, ws⟩ :=
    parse_model_stop fuel
      ⟨rest, ts ++ [['\n']], tc :: t', ps, ms, [], c :: d', os, ws⟩ htn
  have hsp : parse_state_part fuel
      (⟨l :: rest, [['\n']], '@' :: c :: d', ps, ms, [], fn, os, ws⟩ : PState) =
      .ok ⟨l :: rest, [['\n']], '@' :: c :: d', ps, ms, [], fn, os, ws⟩ := by
    simp only [parse_state_part]
    rw [hmS]
    rfl
  have hip : parse_input_part fuel
      (⟨l :: rest, [['\n']], '@' :: c :: d', ps, ms, [], fn, os, ws⟩ : PState) =
      .ok ⟨rest, ts ++ [['\n']], tc :: t', ps, ms, [], c :: d', os, ws⟩ := by
    simp only [parse_input_part]
    rw [hmI, if_pos rfl, hstrip]
    simp only [hgs1, ok_bind]
    simp only [if_true]
    simp only [hgs2, ok_bind]
    rw [hpm]
  simp only [parse_frame]
  simp only [hsp, ok_bind, hip]
  rw [show generate_output [] (c :: d') = .ok ([], []) from rfl]
  simp

theorem C10_empty_model_witness :
    parse_frame 0 ⟨[['.']], [['\n']], ['@','0'], [['b','4']], [], [], ['-','1'], [], []⟩ =
      .ok ⟨[], [['\n']], ['.'], [['b','4']], [], [], ['0'], [], []⟩ := by
  have h := C10_empty_model 0 '0' '.' [] [] [] ['.'] [] [['b','4']] [] []
    ['-','1'] [] []
    (by decide) (by decide) (by decide) (by decide)
  simpa using h

/-! ### Claim C3 — the literal witness with a blank header-terminator line -/

/-- C3: on the spec's literal witness `sat\nb4\n\n@0\n1 00000000\n.` the
parse does not complete.  The blank line that terminates the header strips
to the empty string, its first token is the empty token, and
`symbols[0][0]` raises an uncaught `IndexError`: no properties, bytes or
memory constraints are ever returned to the caller. -/
theorem C3_failing_run :
    parse_witness 50 (initState C3input) = .error .indexError := by rfl

/-! ### Claim C6 — a non-binary token accepted in bit-vector position -/

theorem C6_u1 : get_symbol (initState C6input) =
    .ok ⟨[['b','0'], ['@','0'], ['1',' ','0','1','x'], ['.']],
         [['\n']], ['s','a','t'], [], [], [], ['-','1'], [], []⟩ := by rfl

theorem C6_hh : parse_header 50
    ⟨[['b','0'], ['@','0'], ['1',' ','0','1','x'], ['.']],
     [['\n']], ['s','a','t'], [], [], [], ['-','1'], [], []⟩ =
    .ok ⟨[['1',' ','0','1','x'], ['.']],
         [['\n']], ['@','0'], [['b','0']], [], [], ['-','1'], [], []⟩ := by rfl

theorem C6_hsp : parse_state_part 49
    ⟨[['1',' ','0','1','x'], ['.']],
     [['\n']], ['@','0'], [['b','0']], [], [], ['-','1'], [], []⟩ =
    .ok ⟨[['1',' ','0','1','x'], ['.']],
         [['\n']], ['@','0'], [['b','0']], [], [], ['-','1'], [], []⟩ := by rfl

set_option maxHeartbeats 2000000 in
theorem C6_hip : parse_input_part 49
    ⟨[['1',' ','0','1','x'], ['.']],
     [['\n']], ['@','0'], [['b','0']], [], [], ['-','1'], [], []⟩ =
    .ok ⟨[], [['\n']], ['.'], [['b','0']], [], [['0','1','x']], ['0'], [], []⟩ := by rfl

theorem C6_hgen : generate_output [['0','1','x']] ['0'] = .error .valueError := by rfl

theorem C6_hf : parse_frame 49
    ⟨[['1',' ','0','1','x'], ['.']],
     [['\n']], ['@','0'], [['b','0']], [], [], ['-','1'], [], []⟩ =
    .error .valueError := by
  simp only [parse_frame]
  rewrite [C6_hsp]
  rewrite [ok_bind]
  rewrite [C6_hip]
  rewrite [ok_bind]
  rewrite [C6_hgen]
  rfl

/-- C6: the bit-vector position accepts the token `01x` — the prefix
regular-expression match `re.match(r'[01]+', s)` succeeds on any token
*starting* with a binary digit — records it in the frame, and the parse
then dies with an uncaught `ValueError` from `int('01x', 2)`, which is not
the `parser_error` exit path the spec promises for non-binary tokens. -/
theorem C6_failing_run :
    parse_witness 50 (initState C6input) = .error .valueError ∧
    matches_bin_tok ['0','1','x'] = true ∧
    Err.isParserErr .valueError = false := by
  refine ⟨?_, rfl, rfl⟩
  simp only [parse_witness]
  rewrite [C6_u1]
  rewrite [ok_bind]
  rewrite [C6_hh]
  rewrite [ok_bind]
  rewrite [frame_loop_go 50 _ (by decide) (by decide)]
  simp only [Nat.reduceSub]
  rewrite [C6_hf]
  rewrite [error_bind]
  rfl

/-! ### Claim C9 — comment lines are invisible to the parse result

The proof is a simulation argument: `StRel c st st'` relates two states
equal everywhere except that the unread input of `st'` may carry one extra
comment line `c`; every parse step preserves the relation, and the
caller-visible projection of related results is equal. -/

theorem pySplitSpace_cons_shape (s : Str) : ∃ t ts, pySplitSpace s = t :: ts := by
  induction s with
  | nil => exact ⟨[], [], rfl⟩
  | cons a r ih =>
    obtain ⟨t, ts, h⟩ := ih
    by_cases ha : a = ' '
    · exact ⟨[], t :: ts, by simp [pySplitSpace, h, ha]⟩
    · exact ⟨a :: t, ts, by simp [pySplitSpace, h, ha]⟩

theorem tokenizeLine_comment (c : Str) (hc : isCommentLine c = true) :
    ∃ t ts, tokenizeLine c = (';' :: t) :: ts := by
  rw [isCommentLine] at hc
  cases hpc : pyStrip c with
  | nil => rw [hpc] at hc; simp at hc
  | cons d w =>
    rw [hpc] at hc
    simp at hc
    subst hc
    obtain ⟨t, ts, h⟩ := pySplitSpace_cons_shape w
    exact ⟨t, ts ++ [['\n']], by rw [tokenizeLine, hpc]; simp [pySplitSpace, h]⟩

theorem insertLine_nil (i : Nat) (c : Str) : insertLine i c [] = [c] := by
  simp [insertLine]

theorem insertLine_zero (c : Str) (L : List Str) : insertLine 0 c L = c :: L := by
  simp [insertLine]

theorem insertLine_succ_cons (j : Nat) (c l : Str) (ls : List Str) :
    insertLine (j + 1) c (l :: ls) = l :: insertLine j c ls := by
  simp [insertLine]

theorem stRel_refl (c : Str) (st : PState) : StRel c st st :=
  ⟨rfl, rfl, rfl, rfl, rfl, rfl, rfl, rfl, Or.inl rfl⟩

theorem skipRel_refl (c : Str) : ∀ r, SkipRel c r r
  | .error e => .err e
  | .ok (b, _) => .ok b (Or.inl rfl)

theorem excRel_refl (c : Str) : ∀ r, ExcRel c r r
  | .error e => .err e
  | .ok t => .ok (stRel_refl c t)

theorem excRel_resultOf {c : Str} {r r' : Except Err PState}
    (h : ExcRel c r r') : resultOf r' = resultOf r := by
  cases h with
  | err e => rfl
  | ok hst => simp [resultOf, Except.map, hst.props, hst.mc, hst.out, hst.warnings]

theorem excRel_bind {c : Str} {r r' : Except Err PState}
    (h : ExcRel c r r') (f : PState → Except Err PState)
    (hf : ∀ t t', StRel c t t' → ExcRel c (f t) (f t')) :
    ExcRel c (r >>= f) (r' >>= f) := by
  cases h with
  | err e => rw [error_bind]; exact .err e
  | ok hst => rw [ok_bind, ok_bind]; exact hf _ _ hst

theorem skip_comments_rel (c : Str) (hc : isCommentLine c = true)
    (L : List Str) :
    ∀ (L' : List Str), LinesRel c L L' → ∀ (syms : List Str),
      SkipRel c (skip_comments syms L) (skip_comments syms L') := by
  induction L with
  | nil =>
    intro L' hL syms
    rcases hL with rfl | ⟨i, rfl⟩
    · exact skipRel_refl c _
    · rw [insertLine_nil]
      cases syms with
      | nil =>
        rw [skip_comments_nil_buffer, skip_comments_nil_buffer]; exact .err _
      | cons s0 rest =>
        cases s0 with
        | nil =>
          rw [skip_comments_empty_tok, skip_comments_empty_tok]; exact .err _
        | cons a s =>
          by_cases ha : a = ';'
          · subst ha
            rw [skip_comments_exhausted, skip_comments_skip]
            obtain ⟨t, ts, ht⟩ := tokenizeLine_comment c hc
            rw [ht, skip_comments_exhausted]
            exact .err _
          · rw [skip_comments_stop a s rest [] ha,
                skip_comments_stop a s rest [c] ha]
            exact .ok _ (Or.inr ⟨0, (insertLine_zero c []).symm ▸ rfl⟩)
  | cons l ls ih =>
    intro L' hL syms
    rcases hL with rfl | ⟨i, rfl⟩
    · exact skipRel_refl c _
    · cases syms with
      | nil =>
        rw [skip_comments_nil_buffer, skip_comments_nil_buffer]; exact .err _
      | cons s0 rest =>
        cases s0 with
        | nil =>
          rw [skip_comments_empty_tok, skip_comments_empty_tok]; exact .err _
        | cons a s =>
          by_cases ha : a = ';'
          · subst ha
            cases i with
            | zero =>
              rw [insertLine_zero, skip_comments_skip, skip_comments_skip]
              obtain ⟨t, ts, ht⟩ := tokenizeLine_comment c hc
              rw [ht, skip_comments_skip]
              exact skipRel_refl c _
            | succ j =>
              rw [insertLine_succ_cons, skip_comments_skip, skip_comments_skip]
              exact ih (insertLine j c ls) (Or.inr ⟨j, rfl⟩) (tokenizeLine l)
          · rw [skip_comments_stop a s rest _ ha,
                skip_comments_stop a s rest _ ha]
            exact .ok _ (Or.inr ⟨i, rfl⟩)

theorem pop_first_rel {c : Str} {st st' : PState} (h : StRel c st st')
    {r r' : Except Err (List Str × List Str)} (hr : SkipRel c r r') :
    ExcRel c (pop_first st r) (pop_first st' r') := by
  cases hr with
  | err e => exact .err e
  | ok b hLL =>
    cases b with
    | nil => exact .err _
    | cons s rest =>
      exact .ok ⟨rfl, rfl, h.props, h.mc, h.fc, h.fn, h.out, h.warnings, hLL⟩

theorem get_symbol_rel (c : Str) (hc : isCommentLine c = true)
    (st st' : PState) (h : StRel c st st') :
    ExcRel c (get_symbol st) (get_symbol st') := by
  cases hsy : st.symbols with
  | cons s rest =>
    have hsy' : st'.symbols = s :: rest := by rw [h.symbols, hsy]
    have e1 : get_symbol st = pop_first st (skip_comments (s :: rest) st.lines) := by
      rw [get_symbol, hsy]
    have e2 : get_symbol st' = pop_first st' (skip_comments (s :: rest) st'.lines) := by
      rw [get_symbol, hsy']
    rw [e1, e2]
    exact pop_first_rel h (skip_comments_rel c hc st.lines st'.lines h.lines (s :: rest))
  | nil =>
    have hsy' : st'.symbols = [] := by rw [h.symbols, hsy]
    cases hln : st.lines with
    | nil =>
      rcases h.lines with hLL | ⟨i, hins⟩
      · have hln' : st'.lines = [] := by rw [hLL, hln]
        have e1 : get_symbol st = .error .indexError := by
          rw [get_symbol, hsy, hln]
          rfl
        have e2 : get_symbol st' = .error .indexError := by
          rw [get_symbol, hsy', hln']
          rfl
        rw [e1, e2]; exact .err _
      · have hln' : st'.lines = [c] := by rw [hins, hln, insertLine_nil]
        have e1 : get_symbol st = .error .indexError := by
          rw [get_symbol, hsy, hln]
          rfl
        obtain ⟨t, ts, ht⟩ := tokenizeLine_comment c hc
        have e2 : get_symbol st' = .error .indexError := by
          have e3 : get_symbol st' = pop_first st' (skip_comments (tokenizeLine c) []) := by
            rw [get_symbol, hsy', hln']
            rfl
          rw [e3, ht, skip_comments_exhausted]
          rfl
        rw [e1, e2]; exact .err _
    | cons l ls =>
      rcases h.lines with hLL | ⟨i, hins⟩
      · have hln' : st'.lines = l :: ls := by rw [hLL, hln]
        have e1 : get_symbol st = pop_first st (skip_comments (tokenizeLine l) ls) := by
          rw [get_symbol, hsy, hln]
          rfl
        have e2 : get_symbol st' = pop_first st' (skip_comments (tokenizeLine l) ls) := by
          rw [get_symbol, hsy', hln']
          rfl
        rw [e1, e2]
        exact pop_first_rel h (skipRel_refl c _)
      · cases i with
        | zero =>
          have hln' : st'.lines = c :: l :: ls := by rw [hins, hln, insertLine_zero]
          obtain ⟨t, ts, ht⟩ := tokenizeLine_comment c hc
          have e1 : get_symbol st = pop_first st (skip_comments (tokenizeLine l) ls) := by
            rw [get_symbol, hsy, hln]
            rfl
          have e2 : get_symbol st' = pop_first st' (skip_comments (tokenizeLine l) ls) := by
            have e3 : get_symbol st' = pop_first st' (skip_comments (tokenizeLine c) (l :: ls)) := by
              rw [get_symbol, hsy', hln']
              rfl
            rw [e3, ht, skip_comments_skip]
          rw [e1, e2]
          exact pop_first_rel h (skipRel_refl c _)
        | succ j =>
          have hln' : st'.lines = l :: insertLine j c ls := by
            rw [hins, hln, insertLine_succ_cons]
          have e1 : get_symbol st = pop_first st (skip_comments (tokenizeLine l) ls) := by
            rw [get_symbol, hsy, hln]
            rfl
          have e2 : get_symbol st' = pop_first st' (skip_comments (tokenizeLine l) (insertLine j c ls)) := by
            rw [get_symbol, hsy', hln']
            rfl
          rw [e1, e2]
          exact pop_first_rel h (skip_comments_rel c hc ls _ (Or.inr ⟨j, rfl⟩) (tokenizeLine l))

theorem parse_prop_rel (c : Str) (hc : isCommentLine c = true)
    (st st' : PState) (h : StRel c st st') :
    ExcRel c (parse_prop st) (parse_prop st') := by
  rw [parse_prop, parse_prop, h.symbol]
  by_cases hm : matches_prop_tok st.symbol = true
  · rw [if_pos hm, if_pos hm]
    exact get_symbol_rel c hc _ _
      ⟨h.symbols, rfl, by rw [h.props], h.mc, h.fc, h.fn, h.out, h.warnings, h.lines⟩
  · rw [if_neg hm, if_neg hm]
    exact .err _

theorem parse_bv_assignment_rel (c : Str) (hc : isCommentLine c = true)
    (st st' : PState) (h : StRel c st st') :
    ExcRel c (parse_bv_assignment st) (parse_bv_assignment st') := by
  rw [parse_bv_assignment, parse_bv_assignment, h.symbol]
  by_cases hm : matches_bin_tok st.symbol = true
  · rw [if_pos hm, if_pos hm]
    exact get_symbol_rel c hc _ _
      ⟨h.symbols, rfl, h.props, h.mc, by rw [h.fc], h.fn, h.out, h.warnings, h.lines⟩
  · rw [if_neg hm, if_neg hm]
    exact .err _

theorem parse_array_assignment_rel (c : Str) (hc : isCommentLine c = true)
    (st st' : PState) (h : StRel c st st') :
    ExcRel c (parse_array_assignment st) (parse_array_assignment st') := by
  rw [parse_array_assignment, parse_array_assignment, h.symbol]
  cases int2? (pyStripChars ['[', ']'] st.symbol) with
  | none => exact .err _
  | some addr =>
    refine excRel_bind (get_symbol_rel c hc _ _ h) _ ?_
    intro t t' ht
    rw [ht.symbol]
    by_cases hm : matches_bin_tok t.symbol = true
    · rw [if_pos hm, if_pos hm]
      cases int2? t.symbol with
      | none => exact .err _
      | some v =>
        refine excRel_bind (get_symbol_rel c hc _ _ ht) _ ?_
        intro u u' hu
        exact .ok ⟨hu.symbols, hu.symbol, hu.props, by rw [hu.mc], hu.fc, hu.fn,
                   hu.out, hu.warnings, hu.lines⟩
    · rw [if_neg hm, if_neg hm]
      exact .err _

theorem parse_assignment_rel (c : Str) (hc : isCommentLine c = true)
    (st st' : PState) (h : StRel c st st') :
    ExcRel c (parse_assignment st) (parse_assignment st') := by
  rw [parse_assignment, parse_assignment, h.symbol]
  refine excRel_bind ?_ _ ?_
  · by_cases hm : matches_arr_tok st.symbol = true
    · rw [if_pos hm, if_pos hm]; exact parse_array_assignment_rel c hc st st' h
    · rw [if_neg hm, if_neg hm]; exact parse_bv_assignment_rel c hc st st' h
  · intro t t' ht
    rw [ht.symbols]
    by_cases hl : t.symbols.length = 1
    · rw [if_pos hl, if_pos hl]; exact get_symbol_rel c hc _ _ ht
    · rw [if_neg hl, if_neg hl]; exact .ok ht

theorem parse_model_rel (c : Str) (hc : isCommentLine c = true) :
    ∀ (fuel : Nat) (st st' : PState), StRel c st st' →
      ExcRel c (parse_model fuel st) (parse_model fuel st') := by
  intro fuel
  induction fuel with
  | zero =>
    intro st st' h
    simp only [parse_model]
    rw [h.symbol]
    by_cases hn : py_isnumeric st.symbol = true
    · rw [if_pos hn, if_pos hn]; exact .err _
    · rw [if_neg hn, if_neg hn]; exact .ok h
  | succ n ih =>
    intro st st' h
    simp only [parse_model]
    rw [h.symbol]
    by_cases hn : py_isnumeric st.symbol = true
    · rw [if_pos hn, if_pos hn]
      refine excRel_bind (get_symbol_rel c hc _ _ h) _ ?_
      intro t t' ht
      refine excRel_bind (parse_assignment_rel c hc t t' ht) _ ?_
      intro u u' hu
      rw [hu.symbol]
      by_cases he : u.symbol = ['\n']
      · rw [if_pos he, if_pos he]
        refine excRel_bind (get_symbol_rel c hc _ _ hu) _ ?_
        intro v v' hv
        exact ih v v' hv
      · rw [if_neg he, if_neg he]
        exact .err _
    · rw [if_neg hn, if_neg hn]
      exact .ok h

theorem parse_state_part_rel (c : Str) (hc : isCommentLine c = true)
    (fuel : Nat) (st st' : PState) (h : StRel c st st') :
    ExcRel c (parse_state_part fuel st) (parse_state_part fuel st') := by
  rw [parse_state_part, parse_state_part, h.symbol]
  by_cases hm : matches_marker '#' st.symbol = true
  · rw [if_pos hm, if_pos hm]
    refine excRel_bind (get_symbol_rel c hc _ _ h) _ ?_
    intro t t' ht
    rw [ht.symbol]
    by_cases he : t.symbol = ['\n']
    · rw [if_pos he, if_pos he]
      refine excRel_bind (get_symbol_rel c hc _ _ ht) _ ?_
      intro u u' hu
      exact parse_model_rel c hc fuel u u' hu
    · rw [if_neg he, if_neg he]; exact .ok ht
  · rw [if_neg hm, if_neg hm]; exact .ok h

theorem parse_input_part_rel (c : Str) (hc : isCommentLine c = true)
    (fuel : Nat) (st st' : PState) (h : StRel c st st') :
    ExcRel c (parse_input_part fuel st) (parse_input_part fuel st') := by
  rw [parse_input_part, parse_input_part, h.symbol]
  by_cases hm : matches_marker '@' st.symbol = true
  · rw [if_pos hm, if_pos hm]
    refine excRel_bind (get_symbol_rel c hc _ _ ?_) _ ?_
    · exact ⟨h.symbols, rfl, h.props, h.mc, h.fc, rfl, h.out, h.warnings, h.lines⟩
    intro t t' ht
    rw [ht.symbol]
    by_cases he : t.symbol = ['\n']
    · rw [if_pos he, if_pos he]
      refine excRel_bind (get_symbol_rel c hc _ _ ht) _ ?_
      intro u u' hu
      exact parse_model_rel c hc fuel u u' hu
    · rw [if_neg he, if_neg he]; exact .err _
  · rw [if_neg hm, if_neg hm]; exact .err _

theorem parse_frame_rel (c : Str) (hc : isCommentLine c = true)
    (fuel : Nat) (st st' : PState) (h : StRel c st st') :
    ExcRel c (parse_frame fuel st) (parse_frame fuel st') := by
  rw [parse_frame, parse_frame]
  refine excRel_bind (parse_state_part_rel c hc fuel _ _ ?_) _ ?_
  · exact ⟨h.symbols, h.symbol, h.props, h.mc, rfl, h.fn, h.out, h.warnings, h.lines⟩
  intro t t' ht
  refine excRel_bind (parse_input_part_rel c hc fuel t t' ht) _ ?_
  intro u u' hu
  rw [hu.fc, hu.fn]
  cases generate_output u.frame_content u.frame_number with
  | error e => exact .err e
  | ok p =>
    obtain ⟨bs, ws⟩ := p
    exact .ok ⟨hu.symbols, hu.symbol, hu.props, hu.mc, rfl, rfl,
               by rw [hu.out], by rw [hu.warnings], hu.lines⟩

theorem prop_loop_rel (c : Str) (hc : isCommentLine c = true) :
    ∀ (fuel : Nat) (st st' : PState), StRel c st st' →
      ExcRel c (prop_loop fuel st) (prop_loop fuel st') := by
  intro fuel
  induction fuel with
  | zero =>
    intro st st' h
    simp only [prop_loop]
    rw [h.symbol]
    by_cases he : st.symbol = ['\n']
    · rw [if_pos he, if_pos he]; exact .ok h
    · rw [if_neg he, if_neg he]; exact .err _
  | succ n ih =>
    intro st st' h
    simp only [prop_loop]
    rw [h.symbol]
    by_cases he : st.symbol = ['\n']
    · rw [if_pos he, if_pos he]; exact .ok h
    · rw [if_neg he, if_neg he]
      refine excRel_bind (parse_prop_rel c hc st st' h) _ ?_
      intro t t' ht
      exact ih t t' ht

theorem parse_header_rel (c : Str) (hc : isCommentLine c = true)
    (fuel : Nat) (st st' : PState) (h : StRel c st st') :
    ExcRel c (parse_header fuel st) (parse_header fuel st') := by
  rw [parse_header, parse_header, h.symbol]
  by_cases hs : st.symbol = ['s','a','t']
  · rw [if_pos hs, if_pos hs]
    refine excRel_bind (get_symbol_rel c hc _ _ h) _ ?_
    intro t t' ht
    rw [ht.symbol]
    by_cases he : t.symbol = ['\n']
    · rw [if_pos he, if_pos he]
      refine excRel_bind (get_symbol_rel c hc _ _ ht) _ ?_
      intro u u' hu
      refine excRel_bind (prop_loop_rel c hc fuel u u' hu) _ ?_
      intro v v' hv
      exact get_symbol_rel c hc _ _ hv
    · rw [if_neg he, if_neg he]; exact .err _
  · rw [if_neg hs, if_neg hs]; exact .err _

theorem frame_loop_rel (c : Str) (hc : isCommentLine c = true) :
    ∀ (fuel : Nat) (st st' : PState), StRel c st st' →
      ExcRel c (frame_loop fuel st) (frame_loop fuel st') := by
  intro fuel
  induction fuel with
  | zero =>
    intro st st' h
    simp only [frame_loop]
    rw [h.symbol]
    by_cases he : st.symbol = ['.']
    · rw [if_pos he, if_pos he]; exact .ok h
    · rw [if_neg he, if_neg he]; exact .err _
  | succ n ih =>
    intro st st' h
    simp only [frame_loop]
    rw [h.symbol]
    by_cases he : st.symbol = ['.']
    · rw [if_pos he, if_pos he]; exact .ok h
    · rw [if_neg he, if_neg he]
      refine excRel_bind (parse_frame_rel c hc n st st' h) _ ?_
      intro t t' ht
      exact ih t t' ht

theorem parse_witness_rel (c : Str) (hc : isCommentLine c = true)
    (fuel : Nat) (st st' : PState) (h : StRel c st st') :
    ExcRel c (parse_witness fuel st) (parse_witness fuel st') := by
  rw [parse_witness, parse_witness]
  refine excRel_bind (get_symbol_rel c hc _ _ h) _ ?_
  intro t t' ht
  refine excRel_bind (parse_header_rel c hc fuel t t' ht) _ ?_
  intro u u' hu
  exact frame_loop_rel c hc fuel u u' hu

/-- C9: inserting a full-line comment at any line boundary of the witness
text leaves the caller-visible parse result — success or error, the
properties, memory constraints, decoded bytes and warnings — unchanged,
for every fuel budget. -/
theorem C9_comment_insertion (fuel i : Nat) (c : Str) (ls : List Str)
    (hc : isCommentLine c = true) :
    resultOf (parse_witness fuel (initState (insertLine i c ls))) =
      resultOf (parse_witness fuel (initState ls)) := by
  refine excRel_resultOf
    (parse_witness_rel c hc fuel (initState ls) (initState (insertLine i c ls)) ?_)
  exact ⟨rfl, rfl, rfl, rfl, rfl, rfl, rfl, rfl, Or.inr ⟨i, rfl⟩⟩

theorem C9_comment_insertion_witness :
    isCommentLine [';', ' ', 'o', 'k'] = true ∧
    resultOf (parse_witness 50 (initState (insertLine 2 [';', ' ', 'o', 'k'] C6input))) =
      resultOf (parse_witness 50 (initState C6input)) :=
  ⟨by decide, C9_comment_insertion 50 2 [';', ' ', 'o', 'k'] C6input (by decide)⟩
